import Mathlib

set_option maxRecDepth 40000

/-!
# Verification of the score-to-attestation pipeline

Shallow embedding of the attestation script of the `onchain-query`
repository: the fixed-point decimal conversion (`parseDecimal`), the
payload encoding (`encodeScoreData` / `createAttestationData`), the
submission wrapper (`writeScoreOnchain`) and the per-address orchestrator
(`processAddresses`).

Modelling conventions:
* Strings are handled as `List Char`; `String.data` bridges to literals.
* JavaScript `bigint` values are `Int`, object field access is structure
  projection, and a thrown `Error` is the `.error` case of
  `Except String`, carrying the error's message.
* The external world (the scoring service reached through `axios.get`, and
  the attester contract reached through `contract.submitAttestations`
  followed by `tx.wait`) is a parameter `ChainEnv` of the orchestrator;
  the orchestrator additionally returns the list of outward calls it made,
  in order, so that statements about "no submission was attempted" and
  about the inter-address delay can be expressed.
* `ethers.parseUnits(value, 4)` is embedded after the ethers v6 sources:
  `FixedNumber.fromString(value, { decimals: 4, width: 512 })`, i.e. the
  grammar `-?[0-9]*\.?[0-9]*` with at least one digit, zero-padding of the
  fraction to 4 digits, a `too many decimals` error when a non-zero digit
  sits beyond position 4, and a signed 512-bit overflow guard.
* `parseFloat` (used only in the stamp filter, compared against `0`) is
  embedded through the exact positivity threshold of IEEE-754 double
  rounding: the scanned literal (sign, digits, optional fraction,
  optional exponent) produces a double strictly greater than zero exactly
  when its sign is positive and its exact rational value exceeds
  `2 ^ (-1075)`, half the smallest positive subnormal — round to nearest,
  ties to even, sends every smaller positive value to `0`.  The threshold
  is stated in exact integer arithmetic, so tiny decimals that underflow
  to `0` in the real code underflow in the model as well.
-/

namespace OnchainQuery

/-- Decidable equality for `Except`, needed to settle concrete runs of the
fallible pipeline functions by `decide`. -/
instance {ε α : Type} [DecidableEq ε] [DecidableEq α] :
    DecidableEq (Except ε α) := fun x y =>
  match x, y with
  | .ok a, .ok b =>
    if h : a = b then isTrue (by rw [h]) else isFalse (by simp [h])
  | .error e, .error f =>
    if h : e = f then isTrue (by rw [h]) else isFalse (by simp [h])
  | .ok _, .error _ => isFalse (by simp)
  | .error _, .ok _ => isFalse (by simp)

/-- Numeric value of a list of decimal digit characters, most significant
first: the semantics of JavaScript `BigInt` on a digit string. -/
def digitsToNat : List Char → Nat
  | [] => 0
  | c :: cs => (c.toNat - 48) * 10 ^ cs.length + digitsToNat cs

/-- The guard of the truncation regex `(?<=\.\d{4})\d+`: does the list
start with five decimal digits?  (Four digits for the lookbehind, one to
start the match.) -/
def first5Digits (l : List Char) : Bool :=
  (l.take 5).length = 5 && (l.take 5).all (·.isDigit)

/-- `decimalStr.replace(new RegExp(String.raw`(?<=\.\d{4})\d+`), "")`:
remove the first (leftmost) maximal run of digits that is preceded by a
dot and four digits.  The regex has no global flag, so only the first
match is removed. -/
def truncFrom : List Char → List Char
  | [] => []
  | x :: xs =>
    if x = '.' && first5Digits xs then
      '.' :: (xs.take 4 ++ (xs.drop 4).dropWhile (·.isDigit))
    else
      x :: truncFrom xs

/-- Split the unsigned part of a decimal string into (whole, fraction),
mirroring the ethers `FixedNumber.fromString` regular expression
`^(-?)([0-9]*)\.?([0-9]*)$`: digits, an optional single dot, digits.
Returns `none` when the string contains anything else. -/
def splitWholeFrac : List Char → Option (List Char × List Char)
  | [] => some ([], [])
  | x :: xs =>
    if x = '.' then
      if xs.all (·.isDigit) then some ([], xs) else none
    else if x.isDigit then
      (splitWholeFrac xs).map (fun p => (x :: p.1, p.2))
    else
      none

/-- `ethers.parseUnits(value, 4)` (ethers v6): parse against the
`FixedNumber` grammar, pad or truncate-checking the fraction to 4 digits,
build the scaled integer, and reject values outside the signed 512-bit
width. -/
def parseUnits4 (l : List Char) : Except String Int :=
  let neg : Bool := l.head? = some '-'
  let core := if neg then l.tail else l
  match splitWholeFrac core with
  | none => .error "invalid FixedNumber string value"
  | some (w, f) =>
    if w.length + f.length = 0 then
      .error "invalid FixedNumber string value"
    else if !(f.drop 4).all (· = '0') then
      .error "too many decimals for format"
    else
      let dec4 := (f ++ List.replicate 4 '0').take 4
      let mag : Int := digitsToNat (w ++ dec4)
      let v : Int := if neg then -mag else mag
      if v < -(2 ^ 511) || (2 ^ 511 : Int) ≤ v then .error "overflow"
      else .ok v

/-- The source's `parseDecimal` on character lists: regex truncation to 4
fractional digits followed by `ethers.parseUnits(·, 4)`. -/
def parseDecimalChars (l : List Char) : Except String Int :=
  parseUnits4 (truncFrom l)

/-- `parseDecimal` of the attestation script (`SCORE_DECIMALS = 4`). -/
def parseDecimal (s : String) : Except String Int :=
  parseDecimalChars s.data

/-- Modelled from the spec: the exact rational value represented by a
decimal string (optional sign, digits, at most one dot, at least one
digit), or `none` when the string is not of that shape.  Used as the
specification-side reading of scores for the round-trip and stamp-filter
claims. -/
def decimalValue? (l : List Char) : Option ℚ :=
  let neg : Bool := l.head? = some '-'
  let core := if neg then l.tail else l
  match splitWholeFrac core with
  | none => none
  | some (w, f) =>
    if w.length + f.length = 0 then none
    else
      some ((if neg then (-1 : ℚ) else 1) *
        ((digitsToNat w : ℚ) + (digitsToNat f : ℚ) / 10 ^ f.length))

/-- Modelled from the spec: the decimal grammar of §4.1 — optional sign,
base-10 digits, at most one decimal point, no exponent, at least one
digit. -/
def decimalGrammar (l : List Char) : Bool :=
  let core := if l.head? = some '-' then l.tail else l
  match splitWholeFrac core with
  | none => false
  | some (w, f) => decide (0 < w.length + f.length)

/-- Number of fractional digits of a decimal string (0 when no dot or
when malformed). -/
def fracDigits (l : List Char) : Nat :=
  let core := if l.head? = some '-' then l.tail else l
  match splitWholeFrac core with
  | none => 0
  | some (_, f) => f.length

/-- The optionally signed digit run of an exponent part, read with
`parseFloat`'s longest-valid-prefix rule: no digit after the optional
sign means the exponent part is not consumed at all, leaving exponent
`0`. -/
def signedExpValue (r : List Char) : Int :=
  match r with
  | '+' :: ds =>
    if (ds.takeWhile (·.isDigit)).isEmpty then 0
    else (digitsToNat (ds.takeWhile (·.isDigit)) : Int)
  | '-' :: ds =>
    if (ds.takeWhile (·.isDigit)).isEmpty then 0
    else -(digitsToNat (ds.takeWhile (·.isDigit)) : Int)
  | ds =>
    if (ds.takeWhile (·.isDigit)).isEmpty then 0
    else (digitsToNat (ds.takeWhile (·.isDigit)) : Int)

/-- The decimal exponent of the scanned literal: `e` or `E` followed by
an optionally signed digit run, `0` when absent or invalid. -/
def exponentValue (r : List Char) : Int :=
  match r with
  | 'e' :: rest => signedExpValue rest
  | 'E' :: rest => signedExpValue rest
  | _ => 0

/-- Positivity of the double produced by rounding the exact value
`M * 10 ^ (e - k)` (mantissa digits `M`, `k` fractional digits, decimal
exponent `e`) to the nearest double, ties to even: positive exactly when
the value exceeds `2 ^ (-1075)`, half the smallest positive subnormal
(`2 ^ (-1074)`); at or below the threshold the rounding returns `0`
(the tie prefers the even significand, which is `0`).  Rounding up to
`Infinity` preserves positivity, so no upper guard is needed.  Stated in
exact integer arithmetic. -/
def posAfterRounding (M k : Nat) (e : Int) : Bool :=
  if 0 ≤ e then decide (10 ^ k < M * 2 ^ 1075 * 10 ^ e.toNat)
  else decide (10 ^ (k + (-e).toNat) < M * 2 ^ 1075)

/-- `parseFloat(s) > 0` for the part after whitespace and sign: accept an
`Infinity` literal, otherwise scan `digits [ '.' digits ] [ exponent ]`
and test whether the exact value of the scanned literal rounds to a
strictly positive double.  A scan with no digits at all is `NaN` (its
mantissa is `0`, so the test is false). -/
def mantissaPos (r : List Char) : Bool :=
  if r.take 8 = "Infinity".data then true
  else
    let intD := r.takeWhile (·.isDigit)
    let rest := r.dropWhile (·.isDigit)
    let frac := match rest with
      | '.' :: t => t.takeWhile (·.isDigit)
      | _ => []
    let after := match rest with
      | '.' :: t => t.dropWhile (·.isDigit)
      | _ => rest
    posAfterRounding (digitsToNat (intD ++ frac)) frac.length
      (exponentValue after)

/-- The whitespace characters skipped by `parseFloat`: the ECMAScript
WhiteSpace and LineTerminator sets (tab, line feed, vertical tab, form
feed, carriage return, space, no-break space, Ogham space mark, the
en-quad..hair-space range, line and paragraph separators, narrow
no-break space, medium mathematical space, ideographic space, and the
byte-order mark), identified by code point. -/
def isJsSpace (c : Char) : Bool :=
  decide (c.toNat = 32 ∨ c.toNat = 9 ∨ c.toNat = 10 ∨ c.toNat = 11 ∨
    c.toNat = 12 ∨ c.toNat = 13 ∨ c.toNat = 160 ∨ c.toNat = 5760 ∨
    (8192 ≤ c.toNat ∧ c.toNat ≤ 8202) ∨ c.toNat = 8232 ∨ c.toNat = 8233 ∨
    c.toNat = 8239 ∨ c.toNat = 8287 ∨ c.toNat = 12288 ∨ c.toNat = 65279)

/-- `parseFloat(s) > 0` (the stamp filter test of the source): skip
whitespace, read the sign, then test the mantissa.  An empty remainder is
`NaN`, which is not greater than zero. -/
def parseFloatPos (l : List Char) : Bool :=
  match l.dropWhile isJsSpace with
  | [] => false
  | c :: r =>
    if c = '+' then mantissaPos r
    else if c = '-' then false
    else mantissaPos (c :: r)

/-! ## The attestation pipeline -/

/-- `ZERO_BYTES32` of the source. -/
def ZERO_BYTES32 : String :=
  "0x0000000000000000000000000000000000000000000000000000000000000000"

/-- One entry of the `stamps` map of a `V2ScoreResponseData`:
`{ score: string; dedup: boolean }` (the optional `expiration_date` is
never read by the pipeline and is omitted). -/
structure StampData where
  score : String
  dedup : Bool
deriving DecidableEq

/-- The scoring service's response shape.  The `stamps` object is
modelled as an association list in the service's iteration order
(JavaScript string keys preserve insertion order); `last_score_timestamp`
is never read and is omitted; `expiration_timestamp` is modelled as the
millisecond epoch value `new Date(...).getTime()` of the field, since the
pipeline only ever reads it through that conversion. -/
structure V2ScoreResponseData where
  address : String
  score : String
  threshold : String
  passing_score : Bool
  expiration_timestamp : Int
  error : Option String
  stamps : List (String × StampData)
deriving DecidableEq

/-- The abi tuple `(bool, uint8, uint128, uint32, uint32,
tuple(string,uint256)[])` handed to `abiCoder.encode`.  `abi.encode` is
injective on a fixed type list, so the byte payload is modelled by the
tuple itself. -/
structure EncodedScoreData where
  passing_score : Bool
  score_decimals : Int
  scorer_id : Int
  score : Int
  threshold : Int
  stamps : List (String × Int)
deriving DecidableEq

/-- `AttestationRequestData` built by `createAttestationData`. -/
structure AttestationRequestData where
  recipient : String
  expirationTime : Int
  revocable : Bool
  refUID : String
  data : EncodedScoreData
  value : Int
deriving DecidableEq

/-- One `MultiAttestationRequest` entry of the attester ABI. -/
structure MultiAttestationRequest where
  schema : String
  data : List AttestationRequestData
deriving DecidableEq

/-- One result row of `processAddresses`:
`{ address: string; score: string; txHash?: string; error?: string }`. -/
structure AttestationOutcome where
  address : String
  score : String
  txHash : Option String
  error : Option String
deriving DecidableEq

/-- An outward call of the orchestrator, recorded in order: the scoring
service request of `requestV2Score`, the contract transaction of
`writeScoreOnchain`, or the `setTimeout` pause. -/
inductive Event where
  | fetchCall (address : String)
  | submitCall (request : List MultiAttestationRequest)
  | delay (ms : Nat)
deriving DecidableEq

/-- The external world plus configuration: the scoring service behind
`axios.get` (per address), the chain behind
`contract.submitAttestations(...)` / `tx.wait()` (returning the
transaction hash), and the `SCHEMA_UID` configuration value.  A `.error`
models a thrown `Error` with that message. -/
structure ChainEnv where
  fetch : String → Except String V2ScoreResponseData
  submit : List MultiAttestationRequest → Except String String
  schemaUID : String

/-- `encodeScoreData`: `abiCoder.encode` of the score tuple.  The coder
throws when a numeric value does not fit its declared width, and encodes
the tuple faithfully otherwise. -/
def encodeScoreData (passing_score : Bool) (score_decimals scorer_id : Int)
    (score threshold : Int) (stamps : List (String × Int)) :
    Except String EncodedScoreData :=
  if ¬ (0 ≤ score_decimals ∧ score_decimals < 2 ^ 8) then
    .error "value out-of-bounds"
  else if ¬ (0 ≤ scorer_id ∧ scorer_id < 2 ^ 128) then
    .error "value out-of-bounds"
  else if ¬ (0 ≤ score ∧ score < 2 ^ 32) then
    .error "value out-of-bounds"
  else if ¬ (0 ≤ threshold ∧ threshold < 2 ^ 32) then
    .error "value out-of-bounds"
  else if ¬ stamps.all (fun p => 0 ≤ p.2 ∧ p.2 < 2 ^ 256) then
    .error "value out-of-bounds"
  else
    .ok ⟨passing_score, score_decimals, scorer_id, score, threshold, stamps⟩

/-- The `.map` over the filtered stamp entries: parse each contribution's
score with `parseDecimal`, left to right, propagating the first thrown
error. -/
def parseStamps : List (String × StampData) →
    Except String (List (String × Int))
  | [] => .ok []
  | (provider, st) :: rest =>
    match parseDecimalChars st.score.data with
    | .error e => .error e
    | .ok v =>
      match parseStamps rest with
      | .error e => .error e
      | .ok vs => .ok ((provider, v) :: vs)

/-- The stamp filter of `createAttestationData`:
`parseFloat(score) > 0 && !dedup`. -/
def stampFilter (p : String × StampData) : Bool :=
  parseFloatPos p.2.score.data && !p.2.dedup

/-- `createAttestationData`: filter and parse the stamps, scale score and
threshold, abi-encode the tuple, and build the request data with
`revocable: true`, the zero `refUID` and a zero value transfer.
`expirationTime` is `Math.floor(getTime() / 1000)`, i.e. floor division
of the millisecond timestamp.  Evaluation order follows the source: the
stamp map runs before score and threshold are parsed, and the first
thrown error aborts the construction. -/
def createAttestationData (address : String) (scoreData : V2ScoreResponseData)
    (scorerId : Int) : Except String AttestationRequestData :=
  let expirationTime : Int := Int.fdiv scoreData.expiration_timestamp 1000
  match parseStamps (scoreData.stamps.filter stampFilter) with
  | .error e => .error e
  | .ok stamps =>
    match parseDecimalChars scoreData.score.data with
    | .error e => .error e
    | .ok score =>
      match parseDecimalChars scoreData.threshold.data with
      | .error e => .error e
      | .ok threshold =>
        match encodeScoreData scoreData.passing_score 4 scorerId score
            threshold stamps with
        | .error e => .error e
        | .ok encodedData =>
          .ok ⟨address, expirationTime, true, ZERO_BYTES32, encodedData, 0⟩

/-- `writeScoreOnchain`: build the single-entry multi-attestation request
and submit it; the contract call happens only when
`createAttestationData` did not throw.  Returns the result together with
the outward calls made. -/
def writeScoreOnchain (env : ChainEnv) (address : String)
    (scoreData : V2ScoreResponseData) (scorerId : Int) :
    Except String String × List Event :=
  match createAttestationData address scoreData scorerId with
  | .error e => (.error e, [])
  | .ok attestationData =>
    let request := [⟨env.schemaUID, [attestationData]⟩]
    (env.submit request, [.submitCall request])

/-- The body of the per-address loop of `processAddresses`: fetch the
score, short-circuit on a truthy service `error` field, otherwise attest
on chain; any thrown error becomes a `score: "0"` failure row.  A fixed
1000 ms pause follows a successful submission (and only that path).
Returns the result row pushed for this address and the outward calls
made. -/
def processOne (env : ChainEnv) (scorerId : Int) (address : String) :
    AttestationOutcome × List Event :=
  match env.fetch address with
  | .error msg => (⟨address, "0", none, some msg⟩, [.fetchCall address])
  | .ok scoreData =>
    match scoreData.error with
    | some e =>
      if e ≠ "" then
        (⟨address, "0", none, some e⟩, [.fetchCall address])
      else
        processValid env scorerId address scoreData
    | none => processValid env scorerId address scoreData
where
  /-- The path past the `if (scoreData.error)` truthiness guard. -/
  processValid (env : ChainEnv) (scorerId : Int) (address : String)
      (scoreData : V2ScoreResponseData) : AttestationOutcome × List Event :=
    match writeScoreOnchain env address scoreData scorerId with
    | (.error msg, evs) =>
      (⟨address, "0", none, some msg⟩, .fetchCall address :: evs)
    | (.ok txHash, evs) =>
      (⟨address, scoreData.score, some txHash, none⟩,
        .fetchCall address :: (evs ++ [.delay 1000]))

/-- Strictly sequential processing of a list of addresses, accumulating
result rows and outward calls in order. -/
def processList (env : ChainEnv) (scorerId : Int) :
    List String → List AttestationOutcome × List Event
  | [] => ([], [])
  | address :: rest =>
    ((processOne env scorerId address).1 :: (processList env scorerId rest).1,
     (processOne env scorerId address).2 ++ (processList env scorerId rest).2)

/-- The batch loop of `processAddresses`: `for (i = 0; i < n; i += 5)`
over `slice(i, i + 5)`, each batch processed sequentially.  The loop
counter is the structural fuel; `addresses.length` iterations always
suffice since every round consumes at least one address. -/
def processAddressesGo (env : ChainEnv) (scorerId : Int) :
    Nat → List String → List AttestationOutcome × List Event
  | _, [] => ([], [])
  | 0, _ :: _ => ([], [])
  | fuel + 1, addresses@(_ :: _) =>
    ((processList env scorerId (addresses.take 5)).1 ++
       (processAddressesGo env scorerId fuel (addresses.drop 5)).1,
     (processList env scorerId (addresses.take 5)).2 ++
       (processAddressesGo env scorerId fuel (addresses.drop 5)).2)

/-- `processAddresses(addresses, contract, scorerId)`: batched, strictly
sequential per-address processing with isolated error capture. -/
def processAddresses (env : ChainEnv) (addresses : List String)
    (scorerId : Int) : List AttestationOutcome × List Event :=
  processAddressesGo env scorerId addresses.length addresses

/-! ## Specification-side readings and trace observations -/

/-- Modelled from the spec: a stamp contribution is attestable when its
decimal score represents a value strictly greater than zero and it is not
flagged as deduplicated (§4.3). -/
def specStampFilter (p : String × StampData) : Bool :=
  (match decimalValue? p.2.score.data with
    | some q => decide (0 < q)
    | none => false) && !p.2.dedup

/-- Modelled from the spec (amended after the `parseFloat` underflow
counterexample): a stamp contribution is attestable when it is not
flagged as deduplicated and its decimal score still reads as strictly
positive after double rounding, i.e. its exact value exceeds
`2 ^ (-1075)`, half the smallest positive double. -/
def specStampFilterRounded (p : String × StampData) : Bool :=
  (match decimalValue? p.2.score.data with
    | some q => decide ((1 : ℚ) / 2 ^ 1075 < q)
    | none => false) && !p.2.dedup

/-- Does this outward call submit an attestation whose recipient is
`addr`? -/
def isSubmitFor (addr : String) (e : Event) : Bool :=
  match e with
  | .submitCall reqs =>
    reqs.any (fun r => r.data.any (fun d => d.recipient = addr))
  | _ => false

/-- No outward call of the trace submits an attestation for `addr`. -/
def noSubmitFor (addr : String) (evs : List Event) : Bool :=
  evs.all (fun e => !isSubmitFor addr e)

/-- Is this outward call the `setTimeout` pause? -/
def isDelayEvent : Event → Bool
  | .delay _ => true
  | _ => false

/-- The trace contains no pause at all. -/
def noDelay (evs : List Event) : Bool :=
  evs.all (fun e => !isDelayEvent e)

/-! ## Concrete scenarios used to instantiate the theorems -/

/-- The score record of the spec's end-to-end scenario: score `"5.6789"`,
threshold `"20.0000"`, passing, one non-deduplicated `github` stamp. -/
def scenarioRecord (a : String) : V2ScoreResponseData :=
  ⟨a, "5.6789", "20.0000", true, 1893456000000, none,
    [("github", ⟨"5.6789", false⟩)]⟩

/-- End-to-end environment: the service scores every address with
`scenarioRecord`; the chain confirms the transaction for recipient
`"0xA"` with hash `"0xTX1"` and rejects every other submission with
`"nonce too low"`. -/
def scenarioEnv : ChainEnv :=
  { fetch := fun a => .ok (scenarioRecord a)
  , submit := fun reqs =>
      if (reqs.head?.bind (fun r => r.data.head?)).map
          (fun d => d.recipient) = some "0xA" then .ok "0xTX1"
      else .error "nonce too low"
  , schemaUID := "0xSCHEMA" }

/-- Environment whose service reply carries an empty-string `error`
field: present in the JSON, but falsy in JavaScript. -/
def emptyErrorEnv : ChainEnv :=
  { fetch := fun a => .ok ⟨a, "1", "1", true, 0, some "", []⟩
  , submit := fun _ => .ok "0xTX"
  , schemaUID := "0xSCHEMA" }

/-- Environment whose service replies with a logical error
`"rate limited"` for every address. -/
def rateLimitedEnv : ChainEnv :=
  { fetch := fun a => .ok ⟨a, "5.6789", "20.0000", true, 0,
      some "rate limited", []⟩
  , submit := fun _ => .ok "0xTX"
  , schemaUID := "0xSCHEMA" }

/-- Environment whose service request fails at the transport level for
every address. -/
def fetchFailEnv : ChainEnv :=
  { fetch := fun _ => .error "ECONNREFUSED"
  , submit := fun _ => .ok "0xTX"
  , schemaUID := "0xSCHEMA" }

/-- The attestation request data built for `"0xB"` in the end-to-end
scenario. -/
def scenarioRequestB : AttestationRequestData :=
  ⟨"0xB", 1893456000, true, ZERO_BYTES32,
    ⟨true, 4, 335, 56789, 200000, [("github", 56789)]⟩, 0⟩

/-- A 155-digit integer literal: well-formed decimal input whose scaled
value exceeds the signed 512-bit width of `parseUnits`. -/
def bigNines : List Char := List.replicate 155 '9'

/-- `"0."` followed by 324 zeros and a final `1`: a well-formed decimal
score whose exact value `10 ^ (-325)` is strictly positive but below
half the smallest positive double, so JavaScript `parseFloat` returns
`0` for it. -/
def tinyScore : String :=
  String.mk ('0' :: '.' :: (List.replicate 324 '0' ++ ['1']))

/-- A valid score record carrying one non-deduplicated stamp whose score
is `tinyScore`. -/
def tinyScoreRecord : V2ScoreResponseData :=
  ⟨"0xA", "1", "1", true, 0, none, [("tiny", ⟨tinyScore, false⟩)]⟩

/-- The attestation request the pipeline builds for `tinyScoreRecord`:
the payload's stamp list is empty. -/
def tinyRequest : AttestationRequestData :=
  ⟨"0xA", 0, true, ZERO_BYTES32, ⟨true, 4, 1, 10000, 10000, []⟩, 0⟩

/-! ## Orchestrator lemmas -/

lemma processOne_address (env : ChainEnv) (sid : Int) (a : String) :
    (processOne env sid a).1.address = a := by
  unfold processOne processOne.processValid
  repeat' split
  all_goals rfl

lemma processList_fst_map_address (env : ChainEnv) (sid : Int) :
    ∀ l : List String,
      (processList env sid l).1.map (fun o => o.address) = l := by
  intro l
  induction l with
  | nil => rfl
  | cons a rest ih => simp [processList, processOne_address, ih]

lemma processList_fst_get? (env : ChainEnv) (sid : Int) :
    ∀ (l : List String) (i : Nat),
      (processList env sid l).1.get? i =
        (l.get? i).map (fun a => (processOne env sid a).1) := by
  intro l
  induction l with
  | nil => intro i; simp [processList]
  | cons a rest ih =>
    intro i
    cases i with
    | zero => simp [processList]
    | succ j => simpa [processList] using ih j

lemma processList_snd_bind (env : ChainEnv) (sid : Int) :
    ∀ l : List String,
      (processList env sid l).2 = l.flatMap (fun a => (processOne env sid a).2) := by
  intro l
  induction l with
  | nil => rfl
  | cons a rest ih => simp [processList, ih]

lemma processList_append (env : ChainEnv) (sid : Int) (l₁ l₂ : List String) :
    processList env sid (l₁ ++ l₂) =
      ((processList env sid l₁).1 ++ (processList env sid l₂).1,
       (processList env sid l₁).2 ++ (processList env sid l₂).2) := by
  induction l₁ with
  | nil => simp [processList]
  | cons a rest ih => simp [processList, ih]

/-- The batch loop with enough fuel is plain sequential processing. -/
lemma processAddressesGo_eq (env : ChainEnv) (sid : Int) :
    ∀ (fuel : Nat) (l : List String), l.length ≤ fuel →
      processAddressesGo env sid fuel l = processList env sid l := by
  intro fuel
  induction fuel with
  | zero =>
    intro l hl
    have : l = [] := List.eq_nil_of_length_eq_zero (Nat.le_zero.mp hl)
    subst this; rfl
  | succ n ih =>
    intro l hl
    cases l with
    | nil => rfl
    | cons a rest =>
      have hdrop : ((a :: rest).drop 5).length ≤ n := by
        simp only [List.length_drop, List.length_cons] at *
        omega
      calc processAddressesGo env sid (n + 1) (a :: rest)
          = ((processList env sid ((a :: rest).take 5)).1 ++
               (processList env sid ((a :: rest).drop 5)).1,
             (processList env sid ((a :: rest).take 5)).2 ++
               (processList env sid ((a :: rest).drop 5)).2) := by
            simp only [processAddressesGo]
            rw [ih _ hdrop]
        _ = processList env sid ((a :: rest).take 5 ++ (a :: rest).drop 5) :=
            (processList_append env sid _ _).symm
        _ = processList env sid (a :: rest) := by rw [List.take_append_drop]

/-- The batched orchestrator is observationally the sequential one. -/
lemma processAddresses_eq (env : ChainEnv) (sid : Int) (l : List String) :
    processAddresses env l sid = processList env sid l :=
  processAddressesGo_eq env sid l.length l le_rfl

/-- Branch lemma: a transport-level fetch failure yields the failure row
and a trace with only the service call. -/
lemma processOne_fetch_error (env : ChainEnv) (sid : Int) (a : String)
    (msg : String) (hf : env.fetch a = .error msg) :
    processOne env sid a = (⟨a, "0", none, some msg⟩, [.fetchCall a]) := by
  simp [processOne, hf]

/-- Branch lemma: a truthy service `error` field yields the zero-score
row, with no contract interaction and no pause. -/
lemma processOne_zeroScore (env : ChainEnv) (sid : Int) (a : String)
    (d : V2ScoreResponseData) (e : String)
    (hf : env.fetch a = .ok d) (he : d.error = some e) (hne : e ≠ "") :
    processOne env sid a = (⟨a, "0", none, some e⟩, [.fetchCall a]) := by
  simp [processOne, hf, he, hne]

/-- Branch lemma: a falsy service `error` field (absent or the empty
string) falls through to the submission path. -/
lemma processOne_valid (env : ChainEnv) (sid : Int) (a : String)
    (d : V2ScoreResponseData) (hf : env.fetch a = .ok d)
    (he : d.error = none ∨ d.error = some "") :
    processOne env sid a = processOne.processValid env sid a d := by
  rcases he with he | he <;> simp [processOne, hf, he]

/-- `createAttestationData` always sets the recipient to the processed
address. -/
lemma createAttestationData_recipient (a : String) (d : V2ScoreResponseData)
    (sid : Int) (req : AttestationRequestData)
    (h : createAttestationData a d sid = .ok req) : req.recipient = a := by
  unfold createAttestationData at h
  repeat' split at h
  all_goals simp_all
  exact h ▸ rfl

/-- Any submission recorded while processing address `a` carries `a` as
its recipient. -/
lemma processValid_events_submit (env : ChainEnv) (sid : Int)
    (a addr : String) (d : V2ScoreResponseData) :
    ∀ ev ∈ (processOne.processValid env sid a d).2,
      isSubmitFor addr ev = true → addr = a := by
  intro ev hev htrue
  unfold processOne.processValid writeScoreOnchain at hev
  rcases hc : createAttestationData a d sid with e1 | ad <;>
    simp only [hc] at hev
  · simp at hev
    subst hev
    simp [isSubmitFor] at htrue
  · have hrec := createAttestationData_recipient a d sid ad hc
    rcases hs : env.submit [⟨env.schemaUID, [ad]⟩] with m | tx <;>
      simp only [hs] at hev <;> simp at hev
    · rcases hev with hev | hev <;> subst hev <;>
        simp [isSubmitFor, hrec] at htrue ⊢
      exact htrue.symm
    · rcases hev with hev | hev | hev <;> subst hev <;>
        simp [isSubmitFor, hrec] at htrue ⊢
      exact htrue.symm

/-- Any submission recorded while processing address `a` carries `a` as
its recipient (top level). -/
lemma processOne_events_submit (env : ChainEnv) (sid : Int) (a addr : String) :
    ∀ ev ∈ (processOne env sid a).2, isSubmitFor addr ev = true → addr = a := by
  intro ev hev htrue
  rcases hf : env.fetch a with msg | d
  · rw [processOne_fetch_error env sid a msg hf] at hev
    simp at hev
    subst hev
    simp [isSubmitFor] at htrue
  · rcases he : d.error with _ | e
    · rw [processOne_valid env sid a d hf (Or.inl he)] at hev
      exact processValid_events_submit env sid a addr d ev hev htrue
    · by_cases hne : e = ""
      · subst hne
        rw [processOne_valid env sid a d hf (Or.inr he)] at hev
        exact processValid_events_submit env sid a addr d ev hev htrue
      · rw [processOne_zeroScore env sid a d e hf he hne] at hev
        simp at hev
        subst hev
        simp [isSubmitFor] at htrue

/-! ## Claim C1 -/

/-- C1: `processAddresses` returns exactly one outcome per input address,
in input order; each address's outcome is its own isolated
`processOne` result (so a failure of one address cannot affect any
other); and a fetch error for an address is captured in that address's
own row (score `"0"`, no transaction id, the thrown message as the
error). -/
theorem claimC1 (env : ChainEnv) (scorerId : Int) (addresses : List String) :
    ((processAddresses env addresses scorerId).1.map (fun o => o.address) =
        addresses) ∧
    (∀ i a, addresses.get? i = some a →
      (processAddresses env addresses scorerId).1.get? i =
        some (processOne env scorerId a).1) ∧
    (∀ a msg, env.fetch a = .error msg →
      (processOne env scorerId a).1 = ⟨a, "0", none, some msg⟩) := by
  refine ⟨?_, ?_, ?_⟩
  · rw [processAddresses_eq]
    exact processList_fst_map_address env scorerId addresses
  · intro i a h
    rw [processAddresses_eq, processList_fst_get? env scorerId addresses i, h]
    rfl
  · intro a msg h
    simp [processOne, h]

/-- Instantiation of C1 on a concrete two-address run whose fetches all
fail at the transport level. -/
theorem claimC1_witness :
    ((processAddresses fetchFailEnv ["0xA", "0xB"] 1).1.map
        (fun o => o.address) = ["0xA", "0xB"]) ∧
    ((processAddresses fetchFailEnv ["0xA", "0xB"] 1).1.get? 1 =
        some (processOne fetchFailEnv 1 "0xB").1) ∧
    ((processOne fetchFailEnv 1 "0xB").1 =
        ⟨"0xB", "0", none, some "ECONNREFUSED"⟩) :=
  ⟨(claimC1 fetchFailEnv 1 ["0xA", "0xB"]).1,
   (claimC1 fetchFailEnv 1 ["0xA", "0xB"]).2.1 1 "0xB" (by decide),
   (claimC1 fetchFailEnv 1 ["0xA", "0xB"]).2.2 "0xB" "ECONNREFUSED" rfl⟩

/-! ## Claim C2 -/

/-- C2 (amended): for every address whose score-service response is valid
and contains a *non-empty* top-level `error` field, the orchestrator
records the terminal row `(addr, "0", no transaction, the error text)` at
every position where that address occurs, and no submission for that
address is ever sent to the chain. -/
theorem claimC2 (env : ChainEnv) (sid : Int) (addresses : List String)
    (addr : String) (d : V2ScoreResponseData) (e : String)
    (hf : env.fetch addr = .ok d) (he : d.error = some e) (hne : e ≠ "") :
    (∀ i, addresses.get? i = some addr →
      (processAddresses env addresses sid).1.get? i =
        some ⟨addr, "0", none, some e⟩) ∧
    noSubmitFor addr (processAddresses env addresses sid).2 = true := by
  have hone := processOne_zeroScore env sid addr d e hf he hne
  constructor
  · intro i hi
    rw [processAddresses_eq, processList_fst_get? env sid addresses i, hi]
    simp [hone]
  · rw [processAddresses_eq, processList_snd_bind]
    simp only [noSubmitFor, List.all_eq_true, List.mem_flatMap]
    rintro ev ⟨b, hb, hevb⟩
    by_cases hba : b = addr
    · subst hba
      rw [hone] at hevb
      simp at hevb
      subst hevb
      simp [isSubmitFor]
    · cases hsub : isSubmitFor addr ev
      · simp
      · exact absurd (processOne_events_submit env sid b addr ev hevb hsub).symm
          hba

/-- The claim as frozen is false on the code: a response whose top-level
`error` field is present but the empty string is falsy in JavaScript, so
the pipeline proceeds to submit on chain and records a success row. -/
theorem claimC2_counterexample :
    (processAddresses emptyErrorEnv ["0xA"] 1).1 =
      [⟨"0xA", "1", some "0xTX", none⟩] ∧
    (processAddresses emptyErrorEnv ["0xA"] 1).2.any (isSubmitFor "0xA") =
      true := by
  constructor <;> decide

/-- Instantiation of C2 on a concrete `"rate limited"` service error. -/
theorem claimC2_witness :
    ((processAddresses rateLimitedEnv ["0xA"] 1).1.get? 0 =
      some ⟨"0xA", "0", none, some "rate limited"⟩) ∧
    noSubmitFor "0xA" (processAddresses rateLimitedEnv ["0xA"] 1).2 = true :=
  ⟨(claimC2 rateLimitedEnv 1 ["0xA"] "0xA"
      ⟨"0xA", "5.6789", "20.0000", true, 0, some "rate limited", []⟩
      "rate limited" rfl rfl (by decide)).1 0 (by decide),
   (claimC2 rateLimitedEnv 1 ["0xA"] "0xA"
      ⟨"0xA", "5.6789", "20.0000", true, 0, some "rate limited", []⟩
      "rate limited" rfl rfl (by decide)).2⟩

/-! ## Claim C5 -/

/-- C5 (amended): when the fetch succeeds with no (truthy) service error,
the payload encodes, and the on-chain submission throws, the recorded row
carries the generic failure score `"0"` — not the fetched decimal score —
together with the failure cause and no transaction id. -/
theorem claimC5 (env : ChainEnv) (sid : Int) (addr : String)
    (d : V2ScoreResponseData) (ad : AttestationRequestData) (msg : String)
    (hf : env.fetch addr = .ok d)
    (he : d.error = none ∨ d.error = some "")
    (hc : createAttestationData addr d sid = .ok ad)
    (hs : env.submit [⟨env.schemaUID, [ad]⟩] = .error msg) :
    processOne env sid addr =
      (⟨addr, "0", none, some msg⟩,
       [.fetchCall addr, .submitCall [⟨env.schemaUID, [ad]⟩]]) := by
  rw [processOne_valid env sid addr d hf he]
  unfold processOne.processValid writeScoreOnchain
  simp [hc, hs]

/-- The claim as frozen is false on the code: in the end-to-end scenario
the failed second address is recorded with score `"0"`, not with the
fetched `"5.6789"`. -/
theorem claimC5_counterexample :
    (processAddresses scenarioEnv ["0xA", "0xB"] 335).1 =
      [⟨"0xA", "5.6789", some "0xTX1", none⟩,
       ⟨"0xB", "0", none, some "nonce too low"⟩] ∧
    (processAddresses scenarioEnv ["0xA", "0xB"] 335).1.get? 1 ≠
      some ⟨"0xB", "5.6789", none, some "nonce too low"⟩ := by
  constructor <;> decide

/-- Instantiation of C5 on the end-to-end scenario's failing address. -/
theorem claimC5_witness :
    processOne scenarioEnv 335 "0xB" =
      (⟨"0xB", "0", none, some "nonce too low"⟩,
       [.fetchCall "0xB",
        .submitCall [⟨"0xSCHEMA", [scenarioRequestB]⟩]]) :=
  claimC5 scenarioEnv 335 "0xB" (scenarioRecord "0xB") scenarioRequestB
    "nonce too low" rfl (Or.inl rfl) (by decide) (by decide)

/-! ## Claim C8 -/

/-- C8 (amended): the fixed 1000 ms pause is inserted only after a
*successful* submission, as the last step before the next address; an
address that ends in a zero-score or failure row proceeds to the next
address with no pause, and every pause that does occur is exactly
1000 ms (non-adaptive). -/
theorem claimC8 (env : ChainEnv) (sid : Int) (a : String) :
    ((processOne env sid a).1.txHash.isSome = true →
      (processOne env sid a).2.getLast? = some (.delay 1000)) ∧
    ((processOne env sid a).1.txHash = none →
      noDelay (processOne env sid a).2 = true) ∧
    (∀ n, Event.delay n ∈ (processOne env sid a).2 → n = 1000) := by
  have hvalid : ∀ d : V2ScoreResponseData,
      ((processOne.processValid env sid a d).1.txHash.isSome = true →
        (processOne.processValid env sid a d).2.getLast? =
          some (.delay 1000)) ∧
      ((processOne.processValid env sid a d).1.txHash = none →
        noDelay (processOne.processValid env sid a d).2 = true) ∧
      (∀ n, Event.delay n ∈ (processOne.processValid env sid a d).2 →
        n = 1000) := by
    intro d
    unfold processOne.processValid writeScoreOnchain
    rcases hc : createAttestationData a d sid with e1 | ad <;> simp only [hc]
    · exact ⟨by simp, fun _ => rfl, by intro n hn; simp at hn⟩
    · rcases hs : env.submit [⟨env.schemaUID, [ad]⟩] with m | tx <;>
        simp only [hs]
      · exact ⟨by simp, fun _ => rfl, by intro n hn; simp at hn⟩
      · refine ⟨fun _ => rfl, by simp, ?_⟩
        intro n hn
        simpa using hn
  rcases hf : env.fetch a with msg | d
  · rw [processOne_fetch_error env sid a msg hf]
    exact ⟨by simp, fun _ => rfl, by intro n hn; simp at hn⟩
  · rcases he : d.error with _ | e
    · rw [processOne_valid env sid a d hf (Or.inl he)]
      exact hvalid d
    · by_cases hne : e = ""
      · subst hne
        rw [processOne_valid env sid a d hf (Or.inr he)]
        exact hvalid d
      · rw [processOne_zeroScore env sid a d e hf he hne]
        exact ⟨by simp, fun _ => rfl, by intro n hn; simp at hn⟩

/-- The claim as frozen is false on the code: two addresses both reach
the ZeroScore terminal state and the complete trace contains no pause at
all between them. -/
theorem claimC8_counterexample :
    processAddresses rateLimitedEnv ["0xA", "0xB"] 1 =
      ([⟨"0xA", "0", none, some "rate limited"⟩,
        ⟨"0xB", "0", none, some "rate limited"⟩],
       [.fetchCall "0xA", .fetchCall "0xB"]) := by
  decide

/-- Instantiation of C8 on a successful run (pause present, last, and
1000 ms) and on a zero-score run (no pause). -/
theorem claimC8_witness :
    (processOne scenarioEnv 335 "0xA").2.getLast? = some (.delay 1000) ∧
    noDelay (processOne rateLimitedEnv 1 "0xA").2 = true ∧ 1000 = 1000 :=
  ⟨(claimC8 scenarioEnv 335 "0xA").1 (by decide),
   (claimC8 rateLimitedEnv 1 "0xA").2.1 (by decide),
   (claimC8 scenarioEnv 335 "0xA").2.2 1000 (by decide)⟩

/-! ## Truncation lemmas -/

lemma not_dot_of_all_digit (l : List Char) (h : l.all (·.isDigit) = true) :
    '.' ∉ l := by
  intro hm
  have hd := List.all_eq_true.mp h '.' hm
  simp at hd

/-- The truncation regex never fires on a dot-free segment. -/
lemma truncFrom_of_not_dot : ∀ l : List Char, '.' ∉ l → truncFrom l = l := by
  intro l
  induction l with
  | nil => intro _; rfl
  | cons x xs ih =>
    intro h
    simp only [List.mem_cons, not_or] at h
    obtain ⟨hx, hxs⟩ := h
    rw [truncFrom, if_neg (by simp [Ne.symm hx]), ih hxs]

/-- Truncation skips over a dot-free segment unchanged. -/
lemma truncFrom_append : ∀ pre m : List Char, '.' ∉ pre →
    truncFrom (pre ++ m) = pre ++ truncFrom m := by
  intro pre m
  induction pre with
  | nil => intro _; rfl
  | cons x xs ih =>
    intro h
    simp only [List.mem_cons, not_or] at h
    obtain ⟨hx, hxs⟩ := h
    rw [List.cons_append, truncFrom, if_neg (by simp [Ne.symm hx]), ih hxs,
      List.cons_append]

/-- At a dot followed by five or more digits the regex fires and keeps
exactly the first four fractional digits. -/
lemma truncFrom_dot_long (f : List Char) (hf : f.all (·.isDigit) = true)
    (hlen : 4 < f.length) : truncFrom ('.' :: f) = '.' :: f.take 4 := by
  rw [truncFrom, if_pos]
  · have hnil : (f.drop 4).dropWhile (·.isDigit) = [] := by
      rw [List.dropWhile_eq_nil_iff]
      intro x hx
      exact List.all_eq_true.mp hf x (List.mem_of_mem_drop hx)
    rw [hnil, List.append_nil]
  · simp only [first5Digits, Bool.and_eq_true, decide_eq_true_eq,
      List.all_eq_true]
    refine ⟨trivial, ?_, ?_⟩
    · simp only [List.length_take]
      omega
    · intro x hx
      exact List.all_eq_true.mp hf x (List.mem_of_mem_take hx)

/-- At a dot followed by at most four digits (to the end of the string)
the regex does not fire. -/
lemma truncFrom_dot_short (f : List Char) (hf : f.all (·.isDigit) = true)
    (hlen : f.length ≤ 4) : truncFrom ('.' :: f) = '.' :: f := by
  rw [truncFrom, if_neg, truncFrom_of_not_dot f (not_dot_of_all_digit f hf)]
  simp only [first5Digits, Bool.and_eq_true, decide_eq_true_eq, not_and,
    List.length_take]
  intro _ h5
  omega

/-! ## Claim C4 -/

/-- C4: on a decimal string with more than 4 fractional digits,
`parseDecimal` discards the excess digits — truncation, not rounding: the
result is the same as for the string already cut to 4 fractional
digits. -/
theorem claimC4 (pre f : List Char) (hpre : '.' ∉ pre)
    (hf : f.all (·.isDigit) = true) (hlen : 4 < f.length) :
    parseDecimalChars (pre ++ '.' :: f) =
      parseDecimalChars (pre ++ '.' :: f.take 4) := by
  unfold parseDecimalChars
  rw [truncFrom_append pre ('.' :: f) hpre,
    truncFrom_append pre ('.' :: f.take 4) hpre,
    truncFrom_dot_long f hf hlen,
    truncFrom_dot_short (f.take 4)
      (by
        rw [List.all_eq_true]
        intro x hx
        exact List.all_eq_true.mp hf x (List.mem_of_mem_take hx))
      (by simp [List.length_take])]

/-- Instantiation of C4 on the spec's own example:
`toScaled("2.12345", 4) == toScaled("2.1234", 4)`. -/
theorem claimC4_witness : parseDecimal "2.12345" = parseDecimal "2.1234" := by
  have h := claimC4 ['2'] ['1', '2', '3', '4', '5'] (by decide) (by decide)
    (by decide)
  simpa [parseDecimal] using h

/-! ## Digit-value lemmas -/

lemma digitsToNat_append : ∀ a b : List Char,
    digitsToNat (a ++ b) = digitsToNat a * 10 ^ b.length + digitsToNat b := by
  intro a b
  induction a with
  | nil => simp [digitsToNat]
  | cons c cs ih =>
    show (c.toNat - 48) * 10 ^ (cs ++ b).length + digitsToNat (cs ++ b) =
      ((c.toNat - 48) * 10 ^ cs.length + digitsToNat cs) * 10 ^ b.length +
        digitsToNat b
    rw [ih, List.length_append, pow_add]
    ring

lemma digitsToNat_replicate_zero : ∀ k : Nat,
    digitsToNat (List.replicate k '0') = 0 := by
  intro k
  induction k with
  | zero => rfl
  | succ n ih =>
    rw [List.replicate_succ, digitsToNat, ih]
    have h0 : '0'.toNat - 48 = 0 := by decide
    rw [h0]
    ring

lemma digit_ne_neg (c : Char) (h : c.isDigit = true) : c ≠ '-' := by
  intro hc
  subst hc
  simp at h

/-- The fraction padded with four zeros and cut at four is the fraction
padded exactly to length four. -/
lemma dec4_eq (f : List Char) (h : f.length ≤ 4) :
    (f ++ List.replicate 4 '0').take 4 =
      f ++ List.replicate (4 - f.length) '0' := by
  rw [List.take_append_eq_append_take, List.take_of_length_le h,
    List.take_replicate, min_eq_left (Nat.sub_le 4 f.length)]

/-! ## `splitWholeFrac` on well-formed input -/

lemma digit_ne_dot (c : Char) (h : c.isDigit = true) : ¬ c = '.' := by
  intro hc
  subst hc
  simp at h

lemma splitWholeFrac_digits : ∀ w : List Char, w.all (·.isDigit) = true →
    splitWholeFrac w = some (w, []) := by
  intro w
  induction w with
  | nil => intro _; rfl
  | cons c cs ih =>
    intro h
    simp only [List.all_cons, Bool.and_eq_true] at h
    obtain ⟨hc, hcs⟩ := h
    rw [splitWholeFrac, if_neg (digit_ne_dot c hc), if_pos hc, ih hcs]
    rfl

lemma splitWholeFrac_dot : ∀ w f : List Char, w.all (·.isDigit) = true →
    f.all (·.isDigit) = true →
    splitWholeFrac (w ++ '.' :: f) = some (w, f) := by
  intro w f
  induction w with
  | nil =>
    intro _ hf
    rw [List.nil_append, splitWholeFrac, if_pos rfl, if_pos hf]
  | cons c cs ih =>
    intro hw hf
    simp only [List.all_cons, Bool.and_eq_true] at hw
    obtain ⟨hc, hcs⟩ := hw
    rw [List.cons_append, splitWholeFrac, if_neg (digit_ne_dot c hc),
      if_pos hc, ih hcs hf]
    rfl

/-! ## `parseUnits4` and `decimalValue?` on well-formed input -/

/-- Evaluation of `parseUnits4` on an unsigned grammar-valid string with
at most 4 fractional digits. -/
lemma parseUnits4_pos (m w f : List Char) (hm : ¬ m.head? = some '-')
    (hsplit : splitWholeFrac m = some (w, f)) (hlen : f.length ≤ 4)
    (hpos : 0 < w.length + f.length)
    (hbound : digitsToNat w * 10 ^ 4 + digitsToNat f * 10 ^ (4 - f.length)
      < 2 ^ 511) :
    parseUnits4 m = .ok ((digitsToNat w * 10 ^ 4 +
      digitsToNat f * 10 ^ (4 - f.length) : Nat) : Int) := by
  simp only [parseUnits4, decide_eq_false hm, Bool.false_eq_true, if_false,
    hsplit]
  rw [if_neg (by omega), List.drop_eq_nil_of_le hlen]
  simp only [List.all_nil, Bool.not_true, Bool.false_eq_true, if_false]
  rw [dec4_eq f hlen, ← List.append_assoc, digitsToNat_append (w ++ f) _,
    digitsToNat_replicate_zero, List.length_replicate,
    digitsToNat_append w f]
  have harith : (digitsToNat w * 10 ^ f.length + digitsToNat f) *
      10 ^ (4 - f.length) + 0 =
      digitsToNat w * 10 ^ 4 + digitsToNat f * 10 ^ (4 - f.length) := by
    have h4 : f.length + (4 - f.length) = 4 := by omega
    rw [add_mul, mul_assoc, ← pow_add, h4, add_zero]
  rw [harith, if_neg]
  intro hover
  rcases Bool.or_eq_true_iff.mp hover with hov | hov
  · have := of_decide_eq_true hov
    omega
  · have := of_decide_eq_true hov
    have hcast : ((digitsToNat w * 10 ^ 4 +
        digitsToNat f * 10 ^ (4 - f.length) : Nat) : Int) < 2 ^ 511 := by
      exact_mod_cast hbound
    omega

/-- Evaluation of `parseUnits4` on a `'-'`-signed grammar-valid string
with at most 4 fractional digits. -/
lemma parseUnits4_negSign (m w f : List Char)
    (hsplit : splitWholeFrac m = some (w, f)) (hlen : f.length ≤ 4)
    (hpos : 0 < w.length + f.length)
    (hbound : digitsToNat w * 10 ^ 4 + digitsToNat f * 10 ^ (4 - f.length)
      < 2 ^ 511) :
    parseUnits4 ('-' :: m) = .ok (-((digitsToNat w * 10 ^ 4 +
      digitsToNat f * 10 ^ (4 - f.length) : Nat) : Int)) := by
  have hh : ('-' :: m).head? = some '-' := rfl
  simp only [parseUnits4, decide_eq_true hh, if_true, List.tail_cons, hsplit]
  rw [if_neg (by omega), List.drop_eq_nil_of_le hlen]
  simp only [List.all_nil, Bool.not_true, Bool.false_eq_true, if_false]
  rw [dec4_eq f hlen, ← List.append_assoc, digitsToNat_append (w ++ f) _,
    digitsToNat_replicate_zero, List.length_replicate,
    digitsToNat_append w f]
  have harith : (digitsToNat w * 10 ^ f.length + digitsToNat f) *
      10 ^ (4 - f.length) + 0 =
      digitsToNat w * 10 ^ 4 + digitsToNat f * 10 ^ (4 - f.length) := by
    have h4 : f.length + (4 - f.length) = 4 := by omega
    rw [add_mul, mul_assoc, ← pow_add, h4, add_zero]
  rw [harith, if_neg]
  intro hover
  have hcast : ((digitsToNat w * 10 ^ 4 +
      digitsToNat f * 10 ^ (4 - f.length) : Nat) : Int) < 2 ^ 511 := by
    exact_mod_cast hbound
  rcases Bool.or_eq_true_iff.mp hover with hov | hov
  · have hlt := of_decide_eq_true hov
    omega
  · have hle := of_decide_eq_true hov
    omega

/-- Evaluation of `decimalValue?` on an unsigned grammar-valid string. -/
lemma decimalValue?_pos (m w f : List Char) (hm : ¬ m.head? = some '-')
    (hsplit : splitWholeFrac m = some (w, f))
    (hpos : 0 < w.length + f.length) :
    decimalValue? m =
      some ((digitsToNat w : ℚ) + (digitsToNat f : ℚ) / 10 ^ f.length) := by
  simp only [decimalValue?, decide_eq_false hm, Bool.false_eq_true, if_false,
    hsplit]
  rw [if_neg (by omega), one_mul]

/-- Evaluation of `decimalValue?` on a `'-'`-signed grammar-valid
string. -/
lemma decimalValue?_negSign (m w f : List Char)
    (hsplit : splitWholeFrac m = some (w, f))
    (hpos : 0 < w.length + f.length) :
    decimalValue? ('-' :: m) =
      some (-((digitsToNat w : ℚ) + (digitsToNat f : ℚ) / 10 ^ f.length)) := by
  have hh : ('-' :: m).head? = some '-' := rfl
  simp only [decimalValue?, decide_eq_true hh, if_true, List.tail_cons, hsplit]
  rw [if_neg (by omega), neg_one_mul]

/-- Truncation steps over a non-dot head character. -/
lemma truncFrom_cons_of_ne (x : Char) (hx : ¬ x = '.') (xs : List Char) :
    truncFrom (x :: xs) = x :: truncFrom xs := by
  rw [truncFrom, if_neg (by simp [hx])]

/-- The scaled integer divided by `10 ^ 4` is exactly the represented
value. -/
lemma scale_eq (a b k : Nat) (hk : k ≤ 4) :
    ((a * 10 ^ 4 + b * 10 ^ (4 - k) : Nat) : ℚ) / 10 ^ 4 =
      (a : ℚ) + (b : ℚ) / 10 ^ k := by
  have h4 : (10 : ℚ) ^ 4 = 10 ^ k * 10 ^ (4 - k) := by
    rw [← pow_add]
    congr 1
    omega
  have hk0 : (10 : ℚ) ^ k ≠ 0 := by positivity
  have h40 : (10 : ℚ) ^ 4 ≠ 0 := by positivity
  field_simp
  rw [h4]
  ring

/-! ## Claim C6 -/

/-- C6 (amended): for every decimal string (optional sign, digit lists
`w` and `f` for the whole and fractional parts, with or without a dot)
with at most 4 fractional digits, whose scaled value fits the signed
512-bit width of `parseUnits`, `parseDecimal` produces a scaled integer
that round-trips back to exactly the value the string represents:
`decimalValue?` of the input is the scaled integer divided by `10^4`.
The computation is exact integer arithmetic throughout. -/
theorem claimC6 (neg hasDot : Bool) (w f : List Char)
    (hw : w.all (·.isDigit) = true) (hf : f.all (·.isDigit) = true)
    (hlen : f.length ≤ 4) (hdot : hasDot = false → f = [])
    (hpos : 0 < w.length + f.length)
    (hbound : digitsToNat w * 10 ^ 4 + digitsToNat f * 10 ^ (4 - f.length)
      < 2 ^ 511) :
    ∃ v : Int,
      parseDecimalChars ((if neg then ['-'] else []) ++ w ++
          (if hasDot then '.' :: f else [])) = .ok v ∧
      decimalValue? ((if neg then ['-'] else []) ++ w ++
          (if hasDot then '.' :: f else [])) = some ((v : ℚ) / 10 ^ 4) := by
  have hsplit : splitWholeFrac (w ++ (if hasDot then '.' :: f else [])) =
      some (w, f) := by
    cases hasDot with
    | false =>
      have hf0 : f = [] := hdot rfl
      subst hf0
      simpa using splitWholeFrac_digits w hw
    | true => exact splitWholeFrac_dot w f hw hf
  have hm : ¬ (w ++ (if hasDot then '.' :: f else [])).head? = some '-' := by
    cases w with
    | nil =>
      cases hasDot with
      | false =>
        have hf0 : f = [] := hdot rfl
        subst hf0
        simp at hpos
      | true =>
        intro h
        simp at h
    | cons c cs =>
      intro h
      rw [List.cons_append] at h
      simp only [List.head?_cons, Option.some.injEq] at h
      simp only [List.all_cons, Bool.and_eq_true] at hw
      exact digit_ne_neg c hw.1 h
  have htrunc : truncFrom (w ++ (if hasDot then '.' :: f else [])) =
      w ++ (if hasDot then '.' :: f else []) := by
    cases hasDot with
    | false =>
      have hf0 : f = [] := hdot rfl
      subst hf0
      simp only [Bool.false_eq_true, if_false, List.append_nil]
      exact truncFrom_of_not_dot w (not_dot_of_all_digit w hw)
    | true =>
      simp only [if_true]
      rw [truncFrom_append w ('.' :: f) (not_dot_of_all_digit w hw),
        truncFrom_dot_short f hf hlen]
  cases neg with
  | false =>
    refine ⟨((digitsToNat w * 10 ^ 4 +
      digitsToNat f * 10 ^ (4 - f.length) : Nat) : Int), ?_, ?_⟩
    · simp only [Bool.false_eq_true, if_false, List.nil_append,
        parseDecimalChars, htrunc]
      exact parseUnits4_pos _ w f hm hsplit hlen hpos hbound
    · simp only [Bool.false_eq_true, if_false, List.nil_append]
      rw [decimalValue?_pos _ w f hm hsplit hpos]
      rw [Int.cast_natCast, scale_eq _ _ _ hlen]
  | true =>
    refine ⟨-((digitsToNat w * 10 ^ 4 +
      digitsToNat f * 10 ^ (4 - f.length) : Nat) : Int), ?_, ?_⟩
    · simp only [if_true, List.cons_append, List.nil_append, parseDecimalChars]
      rw [truncFrom_cons_of_ne '-' (by decide) _, htrunc]
      exact parseUnits4_negSign _ w f hsplit hlen hpos hbound
    · simp only [if_true, List.cons_append, List.nil_append]
      rw [decimalValue?_negSign _ w f hsplit hpos]
      rw [Int.cast_neg, Int.cast_natCast, neg_div, scale_eq _ _ _ hlen]

/-- Instantiation of C6 on the scenario score `"5.6789"`. -/
theorem claimC6_witness :
    ∃ v : Int, parseDecimal "5.6789" = .ok v ∧
      decimalValue? "5.6789".data = some ((v : ℚ) / 10 ^ 4) := by
  have h := claimC6 false true ['5'] ['6', '7', '8', '9'] (by decide)
    (by decide) (by decide) (by simp) (by decide) (by decide)
  exact h

/-- The claim as frozen is false on the code: a 155-digit decimal string
with no fractional digits is rejected with an `overflow` error by the
512-bit width guard of `parseUnits`, so no scaled integer is produced at
all. -/
theorem claimC6_counterexample :
    (decimalValue? bigNines).isSome = true ∧ fracDigits bigNines = 0 ∧
    parseDecimalChars bigNines = .error "overflow" := by
  refine ⟨?_, ?_, ?_⟩ <;> decide

/-! ## Grammar preservation through truncation -/

lemma dropWhile_eq_nil_of_all (p : Char → Bool) (l : List Char)
    (h : (l.dropWhile p).all p = true) : l.dropWhile p = [] := by
  cases hd : l.dropWhile p with
  | nil => rfl
  | cons y ys =>
    have h1 := List.head?_dropWhile_not p l
    rw [hd] at h1 h
    simp only [List.head?_cons] at h1
    simp only [List.all_cons, Bool.and_eq_true] at h
    rw [h.1] at h1
    cases h1

/-- If the truncated string is all digits then so was the original. -/
lemma truncFrom_all_digit : ∀ l : List Char,
    (truncFrom l).all (·.isDigit) = true → l.all (·.isDigit) = true := by
  intro l
  induction l with
  | nil => intro _; rfl
  | cons x xs ih =>
    intro h
    by_cases hguard : (x = '.' && first5Digits xs) = true
    · rw [truncFrom, if_pos hguard] at h
      simp at h
    · rw [truncFrom, if_neg hguard] at h
      simp only [List.all_cons, Bool.and_eq_true] at h ⊢
      exact ⟨h.1, ih h.2⟩

/-- Truncation never lengthens a string. -/
lemma truncFrom_length_le : ∀ l : List Char,
    (truncFrom l).length ≤ l.length := by
  intro l
  induction l with
  | nil => exact le_rfl
  | cons x xs ih =>
    by_cases hguard : (x = '.' && first5Digits xs) = true
    · rw [truncFrom, if_pos hguard]
      simp only [first5Digits, Bool.and_eq_true, decide_eq_true_eq] at hguard
      have h5 : 5 ≤ xs.length := by
        have := hguard.2.1
        simp only [List.length_take] at this
        omega
      have hdw : ((xs.drop 4).dropWhile (·.isDigit)).length ≤
          (xs.drop 4).length := (List.dropWhile_sublist _).length_le
      simp only [List.length_cons, List.length_append, List.length_take,
        List.length_drop] at *
      omega
    · rw [truncFrom, if_neg hguard]
      simp only [List.length_cons]
      omega

/-- A successful grammar match of the truncated string lifts to the
original string, with the same whole part and a fraction at least as
long. -/
lemma splitWholeFrac_truncFrom : ∀ (m w' f' : List Char),
    splitWholeFrac (truncFrom m) = some (w', f') →
    ∃ f, splitWholeFrac m = some (w', f) ∧ f'.length ≤ f.length := by
  intro m
  induction m with
  | nil =>
    intro w' f' h
    simp only [truncFrom] at h
    exact ⟨f', h, le_rfl⟩
  | cons x xs ih =>
    intro w' f' h
    by_cases hguard : (x = '.' && first5Digits xs) = true
    · rw [truncFrom, if_pos hguard] at h
      simp only [first5Digits, Bool.and_eq_true, decide_eq_true_eq]
        at hguard
      obtain ⟨hx, h5len, h5dig⟩ := hguard
      subst hx
      rw [splitWholeFrac, if_pos rfl] at h ⊢
      by_cases hall : (xs.take 4 ++ (xs.drop 4).dropWhile (·.isDigit)).all
          (·.isDigit) = true
      · rw [if_pos hall] at h
        simp only [Option.some.injEq, Prod.mk.injEq] at h
        obtain ⟨hw', hf'⟩ := h
        subst hw'
        subst hf'
        rw [List.all_append, Bool.and_eq_true] at hall
        have hnil : (xs.drop 4).dropWhile (·.isDigit) = [] :=
          dropWhile_eq_nil_of_all _ _ hall.2
        have hdrop : (xs.drop 4).all (·.isDigit) = true := by
          rw [List.all_eq_true]
          intro y hy
          have := (List.dropWhile_eq_nil_iff).mp hnil y hy
          exact this
        have hxs : xs.all (·.isDigit) = true := by
          rw [← List.take_append_drop 4 xs, List.all_append,
            Bool.and_eq_true]
          refine ⟨?_, hdrop⟩
          rw [List.all_eq_true]
          intro y hy
          have hy5 : y ∈ xs.take 5 := by
            have : xs.take 4 = (xs.take 5).take 4 := by
              rw [List.take_take]
              norm_num
            rw [this] at hy
            exact List.mem_of_mem_take hy
          exact List.all_eq_true.mp h5dig y hy5
        rw [if_pos hxs]
        refine ⟨xs, rfl, ?_⟩
        rw [hnil, List.append_nil, List.length_take]
        simp only [List.length_take] at h5len
        omega
      · rw [if_neg hall] at h
        cases h
    · rw [truncFrom, if_neg hguard] at h
      by_cases hx : x = '.'
      · subst hx
        rw [splitWholeFrac, if_pos rfl] at h ⊢
        by_cases hall : (truncFrom xs).all (·.isDigit) = true
        · rw [if_pos hall] at h
          simp only [Option.some.injEq, Prod.mk.injEq] at h
          obtain ⟨hw', hf'⟩ := h
          subst hw'
          subst hf'
          rw [if_pos (truncFrom_all_digit xs hall)]
          exact ⟨xs, rfl, truncFrom_length_le xs⟩
        · rw [if_neg hall] at h
          cases h
      · by_cases hd : x.isDigit = true
        · rw [splitWholeFrac, if_neg hx, if_pos hd] at h ⊢
          rcases hsub : splitWholeFrac (truncFrom xs) with _ | ⟨w0, f0⟩ <;>
            rw [hsub] at h
          · cases h
          · simp only [Option.map_some', Option.map_some, Option.some.injEq,
              Prod.mk.injEq] at h
            obtain ⟨hw', hf'⟩ := h
            subst hw'
            subst hf'
            obtain ⟨f, hf, hlen⟩ := ih w0 f0 hsub
            rw [hf]
            exact ⟨f, rfl, hlen⟩
        · rw [splitWholeFrac, if_neg hx, if_neg hd] at h
          cases h

/-- `decimalGrammar` on a non-negative head is the core computation. -/
lemma decimalGrammar_of_head_ne (l : List Char)
    (hl : ¬ l.head? = some '-') :
    decimalGrammar l = (match splitWholeFrac l with
      | none => false
      | some (w, f) => decide (0 < w.length + f.length)) := by
  unfold decimalGrammar
  rw [if_neg hl]

/-- `decimalGrammar` after a `'-'` sign is the core computation on the
rest. -/
lemma decimalGrammar_negSign (m : List Char) :
    decimalGrammar ('-' :: m) = (match splitWholeFrac m with
      | none => false
      | some (w, f) => decide (0 < w.length + f.length)) := by
  unfold decimalGrammar
  have hc : ('-' :: m).head? = some '-' := rfl
  rw [if_pos hc]
  rfl

/-- If the truncated string matches the grammar, the original did. -/
lemma decimalGrammar_truncFrom (l : List Char)
    (h : decimalGrammar (truncFrom l) = true) : decimalGrammar l = true := by
  have hcore : ∀ m : List Char,
      (match splitWholeFrac (truncFrom m) with
        | none => false
        | some (w, f) => decide (0 < w.length + f.length)) = true →
      (match splitWholeFrac m with
        | none => false
        | some (w, f) => decide (0 < w.length + f.length)) = true := by
    intro m hm
    rcases hsub : splitWholeFrac (truncFrom m) with _ | ⟨w', f'⟩ <;>
      rw [hsub] at hm
    · cases hm
    · obtain ⟨f, hf, hlen⟩ := splitWholeFrac_truncFrom m w' f' hsub
      rw [hf]
      have := of_decide_eq_true hm
      simp only [decide_eq_true_eq]
      omega
  cases l with
  | nil => exact h
  | cons x xs =>
    by_cases hx : x = '-'
    · subst hx
      rw [truncFrom_cons_of_ne '-' (by decide) xs, decimalGrammar_negSign]
        at h
      rw [decimalGrammar_negSign]
      exact hcore xs h
    · have hhead : ¬ (x :: xs).head? = some '-' := by
        simp only [List.head?_cons, Option.some.injEq]
        exact hx
      have hheadt : ¬ (truncFrom (x :: xs)).head? = some '-' := by
        by_cases hguard : (x = '.' && first5Digits xs) = true
        · rw [truncFrom, if_pos hguard]
          simp
        · rw [truncFrom, if_neg hguard]
          simpa using hx
      rw [decimalGrammar_of_head_ne _ hheadt] at h
      rw [decimalGrammar_of_head_ne _ hhead]
      exact hcore (x :: xs) h

/-- A string failing the grammar makes `parseUnits4` throw the ethers
`invalid FixedNumber string value` error. -/
lemma parseUnits4_error_of_not_grammar (l : List Char)
    (h : decimalGrammar l = false) :
    parseUnits4 l = .error "invalid FixedNumber string value" := by
  unfold parseUnits4
  unfold decimalGrammar at h
  simp only [decide_eq_true_eq]
  rcases hsplit : splitWholeFrac (if l.head? = some '-' then l.tail else l)
      with _ | ⟨w, f⟩
  · simp only [hsplit]
  · simp only [hsplit] at h ⊢
    have h0 : w.length + f.length = 0 := by
      have := of_decide_eq_false h
      omega
    rw [if_pos h0]

/-! ## Claim C7 -/

/-- C7: `parseDecimal` fails with the malformed-decimal error for every
input that does not match the decimal grammar (optional sign, base-10
digits, at most one decimal point, at least one digit, no exponent) —
in particular for `"abc"`, `"1.2.3"` and `""`. -/
theorem claimC7 :
    (∀ l : List Char, decimalGrammar l = false →
      parseDecimalChars l = .error "invalid FixedNumber string value") ∧
    parseDecimal "abc" = .error "invalid FixedNumber string value" ∧
    parseDecimal "1.2.3" = .error "invalid FixedNumber string value" ∧
    parseDecimal "" = .error "invalid FixedNumber string value" := by
  refine ⟨?_, by decide, by decide, by decide⟩
  intro l h
  unfold parseDecimalChars
  apply parseUnits4_error_of_not_grammar
  cases hg : decimalGrammar (truncFrom l) with
  | false => rfl
  | true => exact absurd (decimalGrammar_truncFrom l hg) (by simp [h])

/-- Instantiation of C7's universal part on `"abc"`. -/
theorem claimC7_witness :
    decimalGrammar "abc".data = false ∧
    parseDecimalChars "abc".data =
      .error "invalid FixedNumber string value" :=
  ⟨by decide, claimC7.1 "abc".data (by decide)⟩

/-! ## `parseFloat` positivity versus the exact decimal value -/

lemma digit_toNat_bounds (c : Char) (h : c.isDigit = true) :
    48 ≤ c.toNat ∧ c.toNat ≤ 57 := by
  simp [Char.isDigit] at h
  exact h

lemma isJsSpace_false_of_digit_or_dot (c : Char)
    (h : c.isDigit = true ∨ c = '.') : isJsSpace c = false := by
  rcases h with h | h
  · obtain ⟨h1, h2⟩ := digit_toNat_bounds c h
    rw [isJsSpace, decide_eq_false_iff_not]
    omega
  · subst h
    decide

lemma ne_plus_of_digit_or_dot (c : Char)
    (h : c.isDigit = true ∨ c = '.') : ¬ c = '+' := by
  rcases h with h | h
  · exact fun hc => absurd (hc ▸ h) (by decide)
  · subst h
    decide

lemma ne_minus_of_digit_or_dot (c : Char)
    (h : c.isDigit = true ∨ c = '.') : ¬ c = '-' := by
  rcases h with h | h
  · exact fun hc => absurd (hc ▸ h) (by decide)
  · subst h
    decide

lemma take8_ne_infinity (c : Char) (r : List Char)
    (h : c.isDigit = true ∨ c = '.') :
    ¬ (c :: r).take 8 = "Infinity".data := by
  intro he
  have hI : "Infinity".data = 'I' :: "nfinity".data := rfl
  rw [List.take_succ_cons, hI, List.cons.injEq] at he
  rcases h with h | h
  · exact absurd (he.1 ▸ h) (by decide)
  · rw [he.1] at h
    exact absurd h (by decide)

lemma takeWhile_digits_dot (w f : List Char)
    (hw : w.all (·.isDigit) = true) :
    (w ++ '.' :: f).takeWhile (·.isDigit) = w := by
  induction w with
  | nil => simp [List.takeWhile_cons]
  | cons c cs ih =>
    simp only [List.all_cons, Bool.and_eq_true] at hw
    rw [List.cons_append, List.takeWhile_cons, if_pos hw.1, ih hw.2]

lemma dropWhile_digits_dot (w f : List Char)
    (hw : w.all (·.isDigit) = true) :
    (w ++ '.' :: f).dropWhile (·.isDigit) = '.' :: f := by
  induction w with
  | nil => simp [List.dropWhile_cons]
  | cons c cs ih =>
    simp only [List.all_cons, Bool.and_eq_true] at hw
    rw [List.cons_append, List.dropWhile_cons, if_pos hw.1, ih hw.2]

lemma takeWhile_digits_all (w : List Char) (hw : w.all (·.isDigit) = true) :
    w.takeWhile (·.isDigit) = w := by
  induction w with
  | nil => rfl
  | cons c cs ih =>
    simp only [List.all_cons, Bool.and_eq_true] at hw
    rw [List.takeWhile_cons, if_pos hw.1, ih hw.2]

lemma dropWhile_digits_all (w : List Char) (hw : w.all (·.isDigit) = true) :
    w.dropWhile (·.isDigit) = [] := by
  rw [List.dropWhile_eq_nil_iff]
  intro x hx
  exact List.all_eq_true.mp hw x hx

/-- `mantissaPos` on `whole.fraction` reads exactly the two digit groups
with no exponent part. -/
lemma mantissaPos_dot (w f : List Char) (hw : w.all (·.isDigit) = true)
    (hf : f.all (·.isDigit) = true) :
    mantissaPos (w ++ '.' :: f) =
      posAfterRounding (digitsToNat (w ++ f)) f.length 0 := by
  have hinf : ¬ (w ++ '.' :: f).take 8 = "Infinity".data := by
    cases w with
    | nil => exact take8_ne_infinity '.' f (Or.inr rfl)
    | cons c cs =>
      simp only [List.all_cons, Bool.and_eq_true] at hw
      exact take8_ne_infinity c _ (Or.inl hw.1)
  unfold mantissaPos
  rw [if_neg hinf]
  simp only [takeWhile_digits_dot w f hw, dropWhile_digits_dot w f hw,
    takeWhile_digits_all f hf, dropWhile_digits_all f hf]
  rfl

/-- `mantissaPos` on a pure digit string reads the whole string with no
fraction and no exponent part. -/
lemma mantissaPos_nodot (w : List Char) (hw : w.all (·.isDigit) = true) :
    mantissaPos w = posAfterRounding (digitsToNat w) 0 0 := by
  cases w with
  | nil => decide
  | cons c cs =>
    have hc : c.isDigit = true := by
      simp only [List.all_cons, Bool.and_eq_true] at hw
      exact hw.1
    have hinf : ¬ (c :: cs).take 8 = "Infinity".data :=
      take8_ne_infinity c cs (Or.inl hc)
    unfold mantissaPos
    rw [if_neg hinf]
    simp only [takeWhile_digits_all _ hw, dropWhile_digits_all _ hw,
      List.append_nil]
    rfl

/-- The double-rounding positivity threshold, read on the represented
value: the value exceeds `2 ^ (-1075)` exactly when the combined digit
string beats the threshold in integer arithmetic. -/
lemma value_threshold_iff (w f : List Char) :
    ((1 : ℚ) / 2 ^ 1075 <
        (digitsToNat w : ℚ) + (digitsToNat f : ℚ) / 10 ^ f.length) ↔
      10 ^ f.length < digitsToNat (w ++ f) * 2 ^ 1075 := by
  have hpow : (0 : ℚ) < 10 ^ f.length := by positivity
  rw [digitsToNat_append]
  have hc : (digitsToNat w : ℚ) + (digitsToNat f : ℚ) / 10 ^ f.length =
      ((digitsToNat w * 10 ^ f.length + digitsToNat f : ℕ) : ℚ) /
        10 ^ f.length := by
    push_cast
    field_simp
  rw [hc, div_lt_div_iff (by positivity) hpow, one_mul]
  norm_cast

/-- Structure of a successful grammar match. -/
lemma splitWholeFrac_shape : ∀ l w f : List Char,
    splitWholeFrac l = some (w, f) →
    w.all (·.isDigit) = true ∧
      ((l = w ++ '.' :: f ∧ f.all (·.isDigit) = true) ∨
        (l = w ∧ f = [])) := by
  intro l
  induction l with
  | nil =>
    intro w f h
    simp only [splitWholeFrac, Option.some.injEq, Prod.mk.injEq] at h
    obtain ⟨hw, hf⟩ := h
    subst hw
    subst hf
    exact ⟨rfl, Or.inr ⟨rfl, rfl⟩⟩
  | cons x xs ih =>
    intro w f h
    by_cases hx : x = '.'
    · subst hx
      rw [splitWholeFrac, if_pos rfl] at h
      by_cases hall : xs.all (·.isDigit) = true
      · rw [if_pos hall] at h
        simp only [Option.some.injEq, Prod.mk.injEq] at h
        obtain ⟨hw, hf⟩ := h
        subst hw
        subst hf
        exact ⟨rfl, Or.inl ⟨rfl, hall⟩⟩
      · rw [if_neg hall] at h
        cases h
    · by_cases hd : x.isDigit = true
      · rw [splitWholeFrac, if_neg hx, if_pos hd] at h
        rcases hsub : splitWholeFrac xs with _ | ⟨w0, f0⟩ <;>
          rw [hsub] at h
        · cases h
        · simp only [Option.map_some', Option.map_some, Option.some.injEq,
            Prod.mk.injEq] at h
          obtain ⟨hw, hf⟩ := h
          obtain ⟨hw0, hsh⟩ := ih w0 f0 hsub
          subst hw
          subst hf
          refine ⟨by simp [hd, hw0], ?_⟩
          rcases hsh with ⟨hxs, hfd⟩ | ⟨hxs, hf0⟩
          · exact Or.inl ⟨by rw [hxs, List.cons_append], hfd⟩
          · exact Or.inr ⟨by rw [hxs], hf0⟩
      · rw [splitWholeFrac, if_neg hx, if_neg hd] at h
        cases h

lemma decimalValue?_none_of_split_none (l : List Char)
    (hsplit : splitWholeFrac (if l.head? = some '-' then l.tail else l) =
      none) : decimalValue? l = none := by
  unfold decimalValue?
  simp only [decide_eq_true_eq, hsplit]

lemma decimalValue?_none_of_empty (l w f : List Char)
    (hsplit : splitWholeFrac (if l.head? = some '-' then l.tail else l) =
      some (w, f)) (h0 : w.length + f.length = 0) :
    decimalValue? l = none := by
  unfold decimalValue?
  simp only [decide_eq_true_eq, hsplit]
  rw [if_pos h0]

lemma dropWhile_isJsSpace_cons (c : Char) (r : List Char)
    (hc : c.isDigit = true ∨ c = '.') :
    (c :: r).dropWhile isJsSpace = c :: r := by
  rw [List.dropWhile_cons,
    if_neg (by simp [isJsSpace_false_of_digit_or_dot c hc])]

/-- Past the whitespace skip and the sign test, `parseFloatPos` on a
string headed by a digit or a dot is `mantissaPos`. -/
lemma parseFloatPos_head_digit_or_dot (c : Char) (r : List Char)
    (hc : c.isDigit = true ∨ c = '.') :
    parseFloatPos (c :: r) = mantissaPos (c :: r) := by
  simp only [parseFloatPos, dropWhile_isJsSpace_cons c r hc]
  rw [if_neg (ne_plus_of_digit_or_dot c hc),
    if_neg (ne_minus_of_digit_or_dot c hc)]

/-- The source's `parseFloat(score) > 0` test agrees with strict
positivity of the exact decimal value, whenever the string is
grammar-valid. -/
lemma parseFloatPos_iff (l : List Char) (q : ℚ)
    (hval : decimalValue? l = some q) :
    (parseFloatPos l = true ↔ (1 : ℚ) / 2 ^ 1075 < q) := by
  by_cases hneg : l.head? = some '-'
  · obtain ⟨m, hm⟩ : ∃ m, l = '-' :: m := by
      cases l with
      | nil => cases hneg
      | cons c cs =>
        simp only [List.head?_cons, Option.some.injEq] at hneg
        exact ⟨cs, by rw [hneg]⟩
    subst hm
    rcases hsplit : splitWholeFrac m with _ | ⟨w, f⟩
    · rw [decimalValue?_none_of_split_none _ (by simpa using hsplit)] at hval
      cases hval
    · by_cases h0 : w.length + f.length = 0
      · rw [decimalValue?_none_of_empty _ w f (by simpa using hsplit) h0]
          at hval
        cases hval
      · rw [decimalValue?_negSign m w f hsplit (by omega)] at hval
        have hq : q = -((digitsToNat w : ℚ) +
            (digitsToNat f : ℚ) / 10 ^ f.length) := by
          simp only [Option.some.injEq] at hval
          exact hval.symm
        subst hq
        have hnn : (0 : ℚ) ≤ (digitsToNat w : ℚ) +
            (digitsToNat f : ℚ) / 10 ^ f.length := by positivity
        have hfalse : parseFloatPos ('-' :: m) = false := by
          have hd : ('-' :: m).dropWhile isJsSpace = '-' :: m := by
            rw [List.dropWhile_cons, if_neg (by decide)]
          unfold parseFloatPos
          rw [hd]
          rfl
        rw [hfalse]
        have hthr : (0 : ℚ) < 1 / 2 ^ 1075 := by positivity
        constructor
        · intro hc
          cases hc
        · intro hc
          linarith
  · rcases hsplit : splitWholeFrac l with _ | ⟨w, f⟩
    · rw [decimalValue?_none_of_split_none _ (by rw [if_neg hneg]; exact
        hsplit)] at hval
      cases hval
    · by_cases h0 : w.length + f.length = 0
      · rw [decimalValue?_none_of_empty _ w f (by rw [if_neg hneg]; exact
          hsplit) h0] at hval
        cases hval
      · rw [decimalValue?_pos l w f hneg hsplit (by omega)] at hval
        have hq : q = (digitsToNat w : ℚ) +
            (digitsToNat f : ℚ) / 10 ^ f.length := by
          simp only [Option.some.injEq] at hval
          exact hval.symm
        subst hq
        obtain ⟨hw, hsh⟩ := splitWholeFrac_shape l w f hsplit
        rcases hsh with ⟨hl, hfd⟩ | ⟨hl, hf0⟩
        · subst hl
          have hpfp : parseFloatPos (w ++ '.' :: f) =
              mantissaPos (w ++ '.' :: f) := by
            cases w with
            | nil => exact parseFloatPos_head_digit_or_dot '.' f (Or.inr rfl)
            | cons c cs =>
              simp only [List.all_cons, Bool.and_eq_true] at hw
              rw [List.cons_append]
              exact parseFloatPos_head_digit_or_dot c _ (Or.inl hw.1)
          rw [hpfp, mantissaPos_dot w f hw hfd]
          unfold posAfterRounding
          rw [if_pos le_rfl, decide_eq_true_eq, Int.toNat_zero, pow_zero,
            mul_one]
          exact (value_threshold_iff w f).symm
        · subst hl
          subst hf0
          obtain ⟨c, cs, rfl⟩ : ∃ c cs, l = c :: cs := by
            cases l with
            | nil => simp at h0
            | cons c cs => exact ⟨c, cs, rfl⟩
          have hc : c.isDigit = true := by
            simp only [List.all_cons, Bool.and_eq_true] at hw
            exact hw.1
          rw [parseFloatPos_head_digit_or_dot c cs (Or.inl hc),
            mantissaPos_nodot _ hw]
          unfold posAfterRounding
          rw [if_pos le_rfl, decide_eq_true_eq, Int.toNat_zero, pow_zero,
            mul_one]
          have := value_threshold_iff (c :: cs) []
          simpa using this.symm

/-! ## Claim C3 -/

/-- A successful stamp map keeps the provider names in order. -/
lemma parseStamps_ok_names : ∀ (l : List (String × StampData))
    (res : List (String × Int)), parseStamps l = .ok res →
    res.map Prod.fst = l.map Prod.fst := by
  intro l
  induction l with
  | nil =>
    intro res h
    simp only [parseStamps, Except.ok.injEq] at h
    subst h
    rfl
  | cons p rest ih =>
    intro res h
    obtain ⟨prov, st⟩ := p
    rw [parseStamps] at h
    rcases hparse : parseDecimalChars st.score.data with e | v <;>
      rw [hparse] at h
    · cases h
    · rcases hrest : parseStamps rest with e | vs <;> rw [hrest] at h
      · cases h
      · simp only [Except.ok.injEq] at h
        subst h
        simp only [List.map_cons]
        rw [ih vs hrest]

/-- Destructor for a successful stamp map over a cons cell. -/
lemma parseStamps_cons_ok (prov : String) (st : StampData)
    (rest : List (String × StampData)) (res : List (String × Int))
    (h : parseStamps ((prov, st) :: rest) = .ok res) :
    ∃ v res', parseDecimalChars st.score.data = .ok v ∧
      parseStamps rest = .ok res' ∧ res = (prov, v) :: res' := by
  rw [parseStamps] at h
  rcases hparse : parseDecimalChars st.score.data with e | v <;>
    rw [hparse] at h
  · cases h
  · rcases hrest : parseStamps rest with e | vs <;> rw [hrest] at h
    · cases h
    · simp only [Except.ok.injEq] at h
      exact ⟨v, vs, rfl, rfl, h.symm⟩

/-- A grammar-valid string has an exact decimal value. -/
lemma decimalValue?_isSome_of_grammar (l : List Char)
    (h : decimalGrammar l = true) : ∃ q, decimalValue? l = some q := by
  unfold decimalGrammar at h
  unfold decimalValue?
  simp only [decide_eq_true_eq]
  rcases hsplit : splitWholeFrac (if l.head? = some '-' then l.tail else l)
      with _ | ⟨w, f⟩ <;> simp only [hsplit] at h ⊢
  · cases h
  · rw [if_neg (by have := of_decide_eq_true h; omega)]
    exact ⟨_, rfl⟩

/-- A string accepted by `parseUnits4` is grammar-valid. -/
lemma parseUnits4_ok_grammar (l : List Char) (v : Int)
    (h : parseUnits4 l = .ok v) : decimalGrammar l = true := by
  unfold parseUnits4 at h
  unfold decimalGrammar
  simp only [decide_eq_true_eq] at h ⊢
  rcases hsplit : splitWholeFrac (if l.head? = some '-' then l.tail else l)
      with _ | ⟨w, f⟩ <;> simp only [hsplit] at h ⊢
  · cases h
  · by_cases h0 : w.length + f.length = 0
    · rw [if_pos h0] at h
      cases h
    · simp only [decide_eq_true_eq]
      omega

/-- A string accepted by `parseDecimal` is grammar-valid (before
truncation). -/
lemma parseDecimalChars_ok_grammar (l : List Char) (v : Int)
    (h : parseDecimalChars l = .ok v) : decimalGrammar l = true :=
  decimalGrammar_truncFrom l (parseUnits4_ok_grammar (truncFrom l) v h)

/-- On stamp lists whose code-filtered entries all parse, the source's
`parseFloat`-based filter picks exactly the entries whose decimal score
is strictly positive and not deduplicated. -/
lemma filter_eq_spec : ∀ (l : List (String × StampData))
    (res : List (String × Int)),
    parseStamps (l.filter stampFilter) = .ok res →
    l.filter stampFilter = l.filter specStampFilterRounded := by
  intro l
  induction l with
  | nil => intro res _; rfl
  | cons p rest ih =>
    intro res h
    by_cases hc : stampFilter p = true
    · rw [List.filter_cons_of_pos hc] at h
      obtain ⟨prov, st⟩ := p
      obtain ⟨v, res', hv, hrest, -⟩ :=
        parseStamps_cons_ok prov st (rest.filter stampFilter) res h
      have hgram := parseDecimalChars_ok_grammar st.score.data v hv
      obtain ⟨q, hq⟩ := decimalValue?_isSome_of_grammar st.score.data hgram
      simp only [stampFilter, Bool.and_eq_true, Bool.not_eq_true'] at hc
      have hqthr : (1 : ℚ) / 2 ^ 1075 < q :=
        (parseFloatPos_iff st.score.data q hq).mp hc.1
      have hspec : specStampFilterRounded (prov, st) = true := by
        simp only [specStampFilterRounded, hq, Bool.and_eq_true,
          Bool.not_eq_true', decide_eq_true_eq]
        exact ⟨hqthr, hc.2⟩
      have hcf : stampFilter (prov, st) = true := by
        simp only [stampFilter, Bool.and_eq_true, Bool.not_eq_true']
        exact ⟨hc.1, hc.2⟩
      rw [List.filter_cons_of_pos hcf, List.filter_cons_of_pos hspec,
        ih res' hrest]
    · rw [List.filter_cons_of_neg hc] at h
      have hspec : ¬ specStampFilterRounded p = true := by
        intro hs
        simp only [specStampFilterRounded, Bool.and_eq_true,
          Bool.not_eq_true'] at hs
        rcases hval : decimalValue? p.2.score.data with _ | q
        · rw [hval] at hs
          exact absurd hs.1 (by simp)
        · rw [hval] at hs
          have hqthr : (1 : ℚ) / 2 ^ 1075 < q := of_decide_eq_true hs.1
          have hpf : parseFloatPos p.2.score.data = true :=
            (parseFloatPos_iff p.2.score.data q hval).mpr hqthr
          exact hc (by simp [stampFilter, hpf, hs.2])
      rw [List.filter_cons_of_neg hc, List.filter_cons_of_neg hspec]
      exact ih res h

/-- `encodeScoreData` passes the stamp list through unchanged. -/
lemma encodeScoreData_stamps (ps : Bool) (sd sid sc th : Int)
    (st : List (String × Int)) (enc : EncodedScoreData)
    (h : encodeScoreData ps sd sid sc th st = .ok enc) :
    enc.stamps = st := by
  unfold encodeScoreData at h
  repeat' split at h
  all_goals simp_all
  exact h ▸ rfl

/-- A successful `createAttestationData` packs the parsed, filtered stamp
list into the payload. -/
lemma createAttestationData_stamps (a : String) (d : V2ScoreResponseData)
    (sid : Int) (req : AttestationRequestData)
    (h : createAttestationData a d sid = .ok req) :
    ∃ res, parseStamps (d.stamps.filter stampFilter) = .ok res ∧
      req.data.stamps = res := by
  unfold createAttestationData at h
  rcases hps : parseStamps (d.stamps.filter stampFilter) with e | res
  · simp only [hps] at h
    exact Except.noConfusion h
  · simp only [hps] at h
    refine ⟨res, rfl, ?_⟩
    rcases hsc : parseDecimalChars d.score.data with e | sc
    · simp only [hsc] at h
      exact Except.noConfusion h
    · simp only [hsc] at h
      rcases hth : parseDecimalChars d.threshold.data with e | th
      · simp only [hth] at h
        exact Except.noConfusion h
      · simp only [hth] at h
        rcases henc : encodeScoreData d.passing_score 4 sid sc th res
            with e | enc
        · simp only [henc] at h
          exact Except.noConfusion h
        · simp only [henc, Except.ok.injEq] at h
          subst h
          exact encodeScoreData_stamps _ _ _ _ _ _ _ henc

/-- C3: whenever the attestation payload for a score record encodes
successfully, it includes exactly those stamp contributions that are not
flagged as deduplicated and whose decimal score still reads as strictly
positive after `parseFloat`'s double rounding — exact value above
`2 ^ (-1075)`, half the smallest positive double — in the service's
iteration order: a deduplicated contribution never appears regardless of
its score, and a zero-or-underflowing contribution never appears. -/
theorem claimC3 (addr : String) (d : V2ScoreResponseData) (sid : Int)
    (req : AttestationRequestData)
    (h : createAttestationData addr d sid = .ok req) :
    req.data.stamps.map Prod.fst =
      ((d.stamps.filter specStampFilterRounded).map Prod.fst) := by
  obtain ⟨res, hps, hstamps⟩ := createAttestationData_stamps addr d sid req h
  rw [hstamps, parseStamps_ok_names _ res hps, filter_eq_spec d.stamps res hps]

/-- The claim as frozen is false on the code: the score
`"0." ++ 324 zeros ++ "1"` has exact decimal value `10 ^ (-325)`,
strictly greater than zero, and its stamp is not deduplicated, yet
`parseFloat` underflows to `0` on it, so the payload encodes successfully
with an empty stamp list while the frozen reading of the filter keeps the
`"tiny"` contribution. -/
theorem claimC3_counterexample :
    createAttestationData "0xA" tinyScoreRecord 1 = .ok tinyRequest ∧
    tinyRequest.data.stamps.map Prod.fst = [] ∧
    (tinyScoreRecord.stamps.filter specStampFilter).map Prod.fst =
      ["tiny"] := by
  refine ⟨by decide, rfl, ?_⟩
  have hsplit : splitWholeFrac tinyScore.data =
      some (['0'], List.replicate 324 '0' ++ ['1']) := by decide
  have hq := decimalValue?_pos tinyScore.data ['0']
    (List.replicate 324 '0' ++ ['1']) (by decide) hsplit (by decide)
  have hpos : specStampFilter ("tiny", ⟨tinyScore, false⟩) = true := by
    simp only [specStampFilter, hq, Bool.and_eq_true, Bool.not_eq_true',
      decide_eq_true_eq]
    refine ⟨?_, trivial⟩
    have h0 : digitsToNat ['0'] = 0 := by decide
    have h1 : digitsToNat (List.replicate 324 '0' ++ ['1']) = 1 := by decide
    rw [h0, h1]
    positivity
  show (List.filter specStampFilter
    [("tiny", ⟨tinyScore, false⟩)]).map Prod.fst = ["tiny"]
  rw [List.filter_cons_of_pos hpos]
  rfl

/-- Instantiation of C3 on the end-to-end scenario record. -/
theorem claimC3_witness :
    scenarioRequestB.data.stamps.map Prod.fst =
      (((scenarioRecord "0xB").stamps.filter specStampFilterRounded).map
        Prod.fst) :=
  claimC3 "0xB" (scenarioRecord "0xB") 335 scenarioRequestB (by decide)

end OnchainQuery
